import Mathlib

/-!
Verification of the Knowledge Retrieval & Response Synthesis Engine.

Strings are modelled as lists of characters (`Str`).  The Python string
operations used by the program (`lower`, `strip`, `split`, `count`, `in`,
`startswith`, `endswith`) are embedded as executable functions on `Str`
that reproduce Python's semantics: `split()` with no argument splits on
whitespace runs and drops empty tokens, `split(sep)` keeps empty parts,
`count` counts non-overlapping occurrences, and `x in s` is substring
containment (true for the empty string).
-/

set_option maxHeartbeats 1000000

abbrev Str : Type := List Char

def str (s : String) : Str := s.data

def isPySpace (c : Char) : Bool :=
  c = ' ' || c = '\t' || c = '\n' || c = '\r' || c = Char.ofNat 11 || c = Char.ofNat 12

/-- One character of Python `str.lower`, restricted to the alphabets the
corpus uses (ASCII and Russian Cyrillic). -/
def lowerChar (c : Char) : Char :=
  if 'A' ≤ c && c ≤ 'Z' then Char.ofNat (c.toNat + 32)
  else if c = 'Ё' then 'ё'
  else if 'А' ≤ c && c ≤ 'Я' then Char.ofNat (c.toNat + 32)
  else c

def pyLower (s : Str) : Str := s.map lowerChar

/-- Python `str.strip()`: remove leading and trailing whitespace. -/
def pyStrip (s : Str) : Str :=
  ((s.dropWhile isPySpace).reverse.dropWhile isPySpace).reverse

/-- Worker for Python `str.split()` with no argument: the accumulator holds
the current token reversed; whitespace closes the token (empty tokens are
dropped). -/
def pySplitWsAux : Str → Str → List Str
  | [], acc => if acc.isEmpty then [] else [acc.reverse]
  | c :: rest, acc =>
    if isPySpace c then
      if acc.isEmpty then pySplitWsAux rest [] else acc.reverse :: pySplitWsAux rest []
    else pySplitWsAux rest (c :: acc)

/-- Python `str.split()` with no argument: split on whitespace runs,
dropping empty tokens. -/
def pySplitWs (s : Str) : List Str := pySplitWsAux s []

/-- Worker for Python `str.split(sep)` with a non-empty separator: scan left
to right, cut at each occurrence of `sep`, keeping empty parts.  After a
cut, `skip` more characters (the rest of the separator) are consumed
before scanning resumes. -/
def splitOnGo (sep : Str) : Str → Str → Nat → List Str
  | [], acc, _ => [acc.reverse]
  | c :: rest, acc, 0 =>
    if sep.isPrefixOf (c :: rest) then
      acc.reverse :: splitOnGo sep rest [] (sep.length - 1)
    else
      splitOnGo sep rest (c :: acc) 0
  | _ :: rest, acc, skip + 1 => splitOnGo sep rest acc skip

/-- Python `s.split(sep)` for a non-empty `sep`. -/
def pySplitOn (sep s : Str) : List Str := splitOnGo sep s [] 0

def splitLines (s : Str) : List Str := pySplitOn (str "\n") s

/-- Python substring containment: `occursIn needle hay` models
`needle in hay`. -/
def occursIn (needle : Str) : Str → Bool
  | [] => needle.isEmpty
  | c :: rest => needle.isPrefixOf (c :: rest) || occursIn needle rest

/-- Worker for Python `str.count`: non-overlapping occurrences of a
non-empty needle, scanning left to right; after a match, `skip` more
characters (the rest of the needle) are consumed before scanning resumes. -/
def pyCountAux (needle : Str) : Str → Nat → Nat
  | [], _ => 0
  | c :: rest, 0 =>
    if needle.isPrefixOf (c :: rest) then
      pyCountAux needle rest (needle.length - 1) + 1
    else
      pyCountAux needle rest 0
  | _ :: rest, skip + 1 => pyCountAux needle rest skip

/-- Python `hay.count(needle)`; for the empty needle Python returns
`len(hay) + 1`. -/
def pyCount (hay needle : Str) : Nat :=
  if needle.isEmpty then hay.length + 1 else pyCountAux needle hay 0

def joinNl (parts : List Str) : Str := List.intercalate (str "\n") parts

/-- `line.split(':', 1)[1]` for a line known to contain a colon: everything
after the first colon (and `[]` if there is none). -/
def afterFirstColon : Str → Str
  | [] => []
  | c :: rest => if c = ':' then rest else afterFirstColon rest

/-- The fixed corpus segment delimiter: a run of exactly 50 `=` characters. -/
def delim : Str := List.replicate 50 '='

/-- `KnowledgeBase.load_articles`, pure part: split the corpus text on the
delimiter, strip each segment and keep the non-empty ones. -/
def parse_articles (content : Str) : List Str :=
  ((pySplitOn delim content).map pyStrip).filter (fun a => !a.isEmpty)

/-- Exceptions that `open` / `read` can raise in the program. -/
inductive PyExc where
  | fileNotFoundError
  | permissionError
  | isADirectoryError
  | unicodeDecodeError
deriving DecidableEq

/-- Result of attempting to read the backing corpus file. -/
inductive ReadOutcome where
  | ok (content : Str)
  | exc (e : PyExc)
deriving DecidableEq

/-- `KnowledgeBase.load_articles` including its error handling: the code
catches only `FileNotFoundError` (returning an empty corpus); every other
exception from the read propagates to the caller. -/
def load_articles (fs : ReadOutcome) : Except PyExc (List Str) :=
  match fs with
  | .ok content => .ok (parse_articles content)
  | .exc .fileNotFoundError => .ok []
  | .exc e => .error e

/-- `KnowledgeBase.calculate_relevance`: word scores accumulated over the
deduplicated whitespace tokens of the lowered query, plus a 100 bonus for
verbatim containment of the lowered query. -/
def calculate_relevance (article query : Str) : Nat :=
  let query_words := (pySplitWs (pyLower query)).dedup
  let article_lower := pyLower article
  let score := query_words.foldl
    (fun sc word =>
      if word.length > 3 then sc + pyCount article_lower word * word.length else sc) 0
  if occursIn (pyLower query) article_lower then score + 100 else score

/-- One insertion step of the stable descending sort: a new element is
placed after every already-present element whose score is at least its
own, so elements with equal scores keep their original relative order. -/
def insertScored (x : Str × Nat) : List (Str × Nat) → List (Str × Nat)
  | [] => [x]
  | y :: ys => if x.2 ≤ y.2 then y :: insertScored x ys else x :: y :: ys

/-- `relevant_articles.sort(key=lambda x: x[1], reverse=True)`: Python's
sort is stable, and with `reverse=True` it orders by score descending while
equal-score elements keep their original order.  The stable descending
sort is unique, realised here as left-to-right insertion. -/
def sortScored (l : List (Str × Nat)) : List (Str × Nat) :=
  l.foldl (fun acc x => insertScored x acc) []

/-- `KnowledgeBase.search_articles`: keep positively scored articles with
their scores, stable-sort by score descending, return the articles. -/
def search_articles (corpus : List Str) (query : Str) : List Str :=
  let relevant := corpus.filterMap (fun a =>
    let s := calculate_relevance a query
    if s > 0 then some (a, s) else none)
  (sortScored relevant).map Prod.fst

/-- Trigger keywords of `KnowledgeBase.extract_script`. -/
def scriptTriggers : List Str :=
  [str "💬", str "Что сказать", str "скрипт", str "речь оператора"]

/-- First loop of `KnowledgeBase.extract_script`: collect stripped lines
after a trigger keyword, stopping at a `---` line or a `========` line. -/
def scriptLoop1 : List Str → Bool → List Str → List Str
  | [], _, acc => acc.reverse
  | line :: rest, ins, acc =>
    if scriptTriggers.any (fun k => occursIn k line) then
      scriptLoop1 rest true acc
    else if ins && !(pyStrip line).isEmpty then
      (if (str "---").isPrefixOf line || occursIn (str "========") line then acc.reverse
       else scriptLoop1 rest ins (pyStrip line :: acc))
    else scriptLoop1 rest ins acc

/-- Second loop of `KnowledgeBase.extract_script`: after a line containing
"Действия оператора" or "Консультация", take up to the next 5 lines that are
non-blank and do not start with `---`. -/
def scriptLoop2 : List Str → Option Str
  | [] => none
  | line :: rest =>
    if occursIn (str "Действия оператора") line || occursIn (str "Консультация") line then
      let content := ((rest.take 5).filter
        (fun l => !(pyStrip l).isEmpty && !(str "---").isPrefixOf l)).map pyStrip
      if content.isEmpty then scriptLoop2 rest else some (joinNl content)
    else scriptLoop2 rest

/-- `KnowledgeBase.extract_script`. -/
def extract_script (article : Str) : Option Str :=
  let lines := splitLines article
  let script_lines := scriptLoop1 lines false []
  if !script_lines.isEmpty then some (joinNl (script_lines.take 10))
  else scriptLoop2 lines

/-- Loop of `ResponseGenerator.extract_main_content`: collect stripped lines
after a "СОДЕРЖАНИЕ:" or "Общая информация" line, stopping at a `---` or
`========` line and skipping lines starting with "МО" or "Поиск". -/
def contentLoop : List Str → Bool → List Str → List Str
  | [], _, acc => acc.reverse
  | line :: rest, inc, acc =>
    if occursIn (str "СОДЕРЖАНИЕ:") line || occursIn (str "Общая информация") line then
      contentLoop rest true acc
    else if inc && !(pyStrip line).isEmpty then
      (if (str "---").isPrefixOf line || occursIn (str "========") line then acc.reverse
       else if !(str "МО").isPrefixOf line && !(str "Поиск").isPrefixOf line then
         contentLoop rest inc (pyStrip line :: acc)
       else contentLoop rest inc acc)
    else contentLoop rest inc acc

/-- Fallback loop of `ResponseGenerator.extract_main_content`: the first
stripped lines longer than 10 characters not starting with `===`, stopping
once 10 lines are collected. -/
def meaningfulLoop : List Str → List Str → List Str
  | [], acc => acc.reverse
  | line :: rest, acc =>
    let acc' := if !(pyStrip line).isEmpty && decide ((pyStrip line).length > 10) &&
        !(str "===").isPrefixOf line then pyStrip line :: acc else acc
    if acc'.length ≥ 10 then acc'.reverse else meaningfulLoop rest acc'

/-- `ResponseGenerator.extract_main_content`. -/
def extract_main_content (article : Str) : Str :=
  let lines := splitLines article
  let content_lines := contentLoop lines false []
  if !content_lines.isEmpty then joinNl (content_lines.take 15)
  else
    let meaningful := meaningfulLoop lines []
    if !meaningful.isEmpty then joinNl meaningful
    else article.take 500 ++ str "..."

/-- Sentinel title returned when no marker line is found. -/
def titleSentinel : Str := str "Статья из базы знаний"

/-- Per-line scan of `ResponseGenerator.get_article_title`: each line is
checked first for ("СТАТЬЯ" and a colon), then for "Заголовок:"; the first
line passing either check yields the text after its first colon, stripped. -/
def get_article_title_lines : List Str → Str
  | [] => titleSentinel
  | line :: rest =>
    if occursIn (str "СТАТЬЯ") line && occursIn (str ":") line then
      pyStrip (afterFirstColon line)
    else if occursIn (str "Заголовок:") line then
      pyStrip (afterFirstColon line)
    else get_article_title_lines rest

/-- `ResponseGenerator.get_article_title`. -/
def get_article_title (article : Str) : Str :=
  get_article_title_lines (splitLines article)

/-- `ResponseGenerator.is_direct_answer`. -/
def is_direct_answer (question content : Str) : Bool :=
  let question_lower := pyLower question
  let content_lower := pyLower content
  if ([str "можно ли", str "возможно ли", str "есть ли"]).any
      (fun k => occursIn k question_lower) then
    ([str "да", str "нет", str "можно", str "нельзя", str "нужно", str "не нужно"]).any
      (fun k => occursIn k content_lower)
  else
    false

/-- Decoded JSON body of a generative-service response: a list of objects
(each with an optional `generated_text` field), some other JSON value
(carried as its `str()` rendering), or an unparseable body. -/
inductive HFBody where
  | list (items : List (Option Str))
  | other (stringified : Str)
  | invalid
deriving DecidableEq

/-- Outcome of the outbound HTTP call in `ResponseGenerator.ask_huggingface`:
either the request itself raised (network error, timeout), or a response
arrived with a status code and a body. -/
inductive HFResponse where
  | failure
  | response (status : Nat) (body : HFBody)
deriving DecidableEq

/-- `ResponseGenerator.ask_huggingface`: total — every transport error,
non-200 status or malformed body is absorbed into `none`, never re-raised. -/
def ask_huggingface (resp : HFResponse) : Option Str :=
  match resp with
  | .failure => none
  | .response status body =>
    if status = 200 then
      match body with
      | .list (first :: _) => some (first.getD (str "Не удалось сгенерировать ответ"))
      | .list [] => some (str "[]")
      | .other s => some s
      | .invalid => none
    else none

/-- The failure modes of the external call: raised exception, non-200
status, or malformed (unparseable) payload. -/
def hfFailure (resp : HFResponse) : Bool :=
  match resp with
  | .failure => true
  | .response status body => decide (status ≠ 200) || decide (body = HFBody.invalid)

/-- The prompt built by `ResponseGenerator.enhance_with_ai` from the
question and the first 800 characters of the context. -/
def enhance_prompt (question context : Str) : Str :=
  str "\n            Вопрос: " ++ question ++
  str "\n            Контекст: " ++ context.take 800 ++
  str "\n            \n            Дай точный и краткий ответ на вопрос на основе контекста. \n            Если в контексте нет информации - верни None.\n            Ответ:\n            "

/-- Result of `ResponseGenerator.generate_response` together with the list
of prompts sent to the external generative service, in order. -/
structure GenResult where
  answer : Option Str
  script : Option Str
  source : Str
  prompts : List Str
deriving DecidableEq

/-- `ResponseGenerator.generate_response`, parameterised by the behaviour
`hf` of the external service on each prompt.  On the knowledge-base path the
answer is the extracted content, or the AI-enhanced text when the question
is not a direct answer and the enhancement call returns non-empty text.  On
the fallback path the raw question is sent once and the outcome is returned
with no script under the fixed source label "Нейросеть". -/
def generate_response (hf : Str → HFResponse) (corpus : List Str)
    (question : Str) : GenResult :=
  match search_articles corpus question with
  | best :: _ =>
    let content := extract_main_content best
    let script := extract_script best
    let title := get_article_title best
    if is_direct_answer question content then
      ⟨some content, script, title, []⟩
    else
      let prompt := enhance_prompt question content
      match ask_huggingface (hf prompt) with
      | some enhanced =>
        if !enhanced.isEmpty then ⟨some enhanced, script, title, [prompt]⟩
        else ⟨some content, script, title, [prompt]⟩
      | none => ⟨some content, script, title, [prompt]⟩
  | [] =>
    ⟨ask_huggingface (hf question), none, str "Нейросеть", [question]⟩

/-- Python `s.endswith(suffix)`. -/
def pyEndsWith (s suffix : Str) : Bool := suffix.reverse.isPrefixOf s.reverse

/-- The export filename produced by `FileManager.export_knowledge` in txt
format, for a given timestamp string. -/
def export_filename_txt (timestamp : Str) : Str :=
  str "knowledge_export_" ++ timestamp ++ str ".txt"

/-- The txt branch of `FileManager.export_knowledge`: the knowledge-file
content is written verbatim to a fresh `.txt` file.  Returns the filename
and the bytes written. -/
def FileManager.export_knowledge_txt (knowledge timestamp : Str) : Str × Str :=
  (export_filename_txt timestamp, knowledge)

/-- One article record of a structured JSON export. -/
structure JsonArticle where
  id : Nat
  title : Str
  content : Str

/-- The knowledge-file content built by the JSON branch of
`FileManager.import_knowledge`. -/
def import_json_content (now srcPath : Str) (arts : List JsonArticle) : Str :=
  let header := str "=== БАЗА ЗНАНИЙ - ИМПОРТИРОВАНО ===\n" ++
    str "Время импорта: " ++ now ++ str "\n" ++
    str "Источник: " ++ srcPath ++ str "\n" ++ delim ++ str "\n"
  arts.foldl (fun c a =>
    c ++ str "СТАТЬЯ " ++ Nat.toDigits 10 a.id ++ str ": " ++ a.title ++ str "\n" ++
    a.content ++ str "\n" ++ delim ++ str "\n") header

/-- `FileManager.import_knowledge`: the new knowledge-file content.  A path
ending in `.json` is decoded and re-rendered with headers; any other file's
content is taken verbatim. -/
def FileManager.import_knowledge (path now : Str) (jsonData : List JsonArticle)
    (fileContent : Str) : Str :=
  if pyEndsWith path (str ".json") then import_json_content now path jsonData
  else fileContent

/-- The fixed topic → keyword table of `KnowledgeAnalyzer.analyze_coverage`. -/
def topicsTable : List (Str × List Str) :=
  [ (str "Показания ПУ", [str "показания", str "счетчик", str "ИПУ", str "передать показания"]),
    (str "Оплата", [str "оплата", str "платеж", str "квитанция", str "ЕПД"]),
    (str "Задолженность", [str "задолженность", str "долг", str "работа с должниками"]),
    (str "Техподдержка", [str "техническая поддержка", str "ЛКК", str "сбой", str "ошибка"]),
    (str "Договоры", [str "договор", str "лицевой счет", str "переоформление"]),
    (str "Тарифы", [str "тариф", str "стоимость", str "цена", str "начисление"]),
    (str "Качество услуг", [str "качество", str "жалоба", str "перерасчет", str "ненадлежащее качество"]) ]

/-- Total keyword count of one topic: the sum of the non-overlapping counts
of each lowered keyword in the lowered corpus text. -/
def topicKeywordCount (content_lower : Str) (keywords : List Str) : Nat :=
  keywords.foldl (fun n k => n + pyCount content_lower (pyLower k)) 0

/-- The three-valued coverage classification of
`KnowledgeAnalyzer.analyze_coverage`. -/
def coverageLevel (keyword_count : Nat) : Str :=
  if keyword_count > 10 then str "высокое"
  else if keyword_count > 3 then str "среднее"
  else str "низкое"

/-- `KnowledgeAnalyzer.analyze_coverage`, pure part: for each topic of the
fixed table, its keyword count in the lowered corpus text and its level. -/
def analyze_coverage (content : Str) : List (Str × Nat × Str) :=
  let content_lower := pyLower content
  topicsTable.map (fun tk =>
    let cnt := topicKeywordCount content_lower tk.2
    (tk.1, cnt, coverageLevel cnt))

/-- A line yields a title in `ResponseGenerator.get_article_title` iff it
contains "СТАТЬЯ" together with a colon, or contains "Заголовок:". -/
def titleMatch (line : Str) : Bool :=
  (occursIn (str "СТАТЬЯ") line && occursIn (str ":") line) ||
    occursIn (str "Заголовок:") line

/-! ### General lemmas about the embedded string operations -/

theorem occursIn_nil (hay : Str) : occursIn [] hay = true := by
  cases hay <;> simp [occursIn, List.isPrefixOf]

theorem occursIn_of_isPrefixOf {needle s : Str} (h : needle.isPrefixOf s = true) :
    occursIn needle s = true := by
  cases s with
  | nil =>
    cases needle with
    | nil => simp [occursIn]
    | cons c cs => simp [List.isPrefixOf] at h
  | cons c cs => simp [occursIn, h]

theorem occursIn_cons_false {needle : Str} {c : Char} {rest : Str}
    (h : occursIn needle (c :: rest) = false) : occursIn needle rest = false := by
  simp [occursIn] at h
  exact h.2

theorem foldl_score_eq (hay : Str) (l : List Str) (n : Nat) :
    l.foldl (fun sc w => if w.length > 3 then sc + pyCount hay w * w.length else sc) n =
      n + ((l.filter (fun w => decide (w.length > 3))).map
        (fun w => pyCount hay w * w.length)).sum := by
  induction l generalizing n with
  | nil => simp
  | cons w l ih =>
    by_cases h : w.length > 3
    · simp [List.filter_cons, h, ih, Nat.add_assoc]
    · simp [List.filter_cons, h, ih]

/-- C1: for every article and query, the relevance score equals the sum,
over the deduplicated whitespace tokens of the lowered query that are
longer than 3 characters, of (occurrence count of the word in the lowered
article text) × (word length), plus a flat bonus of 100 exactly when the
full lowered query occurs as a substring of the lowered article text; the
result lives in `Nat`, hence is a non-negative integer.  Occurrence counts
are Python `str.count` counts (non-overlapping), as in the source. -/
theorem C1_relevance_formula (article query : Str) :
    calculate_relevance article query =
      (((pySplitWs (pyLower query)).dedup.filter (fun w => decide (w.length > 3))).map
        (fun w => pyCount (pyLower article) w * w.length)).sum +
      (if occursIn (pyLower query) (pyLower article) then 100 else 0) := by
  simp only [calculate_relevance]
  rw [foldl_score_eq]
  by_cases h : occursIn (pyLower query) (pyLower article) = true <;> simp [h]

theorem calculate_relevance_empty_query (article : Str) :
    calculate_relevance article [] = 100 := by
  simp [calculate_relevance, pyLower, pySplitWs, pySplitWsAux, occursIn_nil]

/-! ### Properties of the stable descending insertion sort -/

theorem mem_insertScored {x z : Str × Nat} {l : List (Str × Nat)} :
    z ∈ insertScored x l ↔ z = x ∨ z ∈ l := by
  induction l with
  | nil => simp [insertScored]
  | cons y ys ih =>
    by_cases h : x.2 ≤ y.2
    · rw [insertScored, if_pos h]
      simp only [List.mem_cons, ih]
      tauto
    · rw [insertScored, if_neg h]
      simp only [List.mem_cons]

theorem insertScored_perm (x : Str × Nat) (l : List (Str × Nat)) :
    List.Perm (insertScored x l) (x :: l) := by
  induction l with
  | nil => simp [insertScored]
  | cons y ys ih =>
    by_cases h : x.2 ≤ y.2
    · rw [insertScored, if_pos h]
      exact (ih.cons y).trans (List.Perm.swap x y ys)
    · rw [insertScored, if_neg h]

theorem insertScored_sorted {x : Str × Nat} {l : List (Str × Nat)}
    (hl : l.Pairwise (fun a b => b.2 ≤ a.2)) :
    (insertScored x l).Pairwise (fun a b => b.2 ≤ a.2) := by
  induction l with
  | nil => simp [insertScored]
  | cons y ys ih =>
    rcases List.pairwise_cons.mp hl with ⟨hy, hys⟩
    by_cases hxy : x.2 ≤ y.2
    · rw [insertScored, if_pos hxy]
      refine List.pairwise_cons.mpr ⟨?_, ih hys⟩
      intro z hz
      rcases mem_insertScored.mp hz with rfl | hz
      · exact hxy
      · exact hy z hz
    · rw [insertScored, if_neg hxy]
      refine List.pairwise_cons.mpr ⟨?_, hl⟩
      intro z hz
      rcases List.mem_cons.mp hz with rfl | hz
      · omega
      · exact le_trans (hy z hz) (by omega)

theorem foldl_insertScored_perm (l : List (Str × Nat)) :
    ∀ acc : List (Str × Nat),
      List.Perm (l.foldl (fun a x => insertScored x a) acc) (acc ++ l) := by
  induction l with
  | nil => intro acc; simp
  | cons x l ih =>
    intro acc
    have h1 := ih (insertScored x acc)
    have h2 : List.Perm (insertScored x acc ++ l) (acc ++ x :: l) :=
      ((insertScored_perm x acc).append_right l).trans List.perm_middle.symm
    simpa using h1.trans h2

theorem sortScored_perm (l : List (Str × Nat)) : List.Perm (sortScored l) l := by
  simpa using foldl_insertScored_perm l []

theorem foldl_insertScored_sorted (l : List (Str × Nat)) :
    ∀ acc : List (Str × Nat), acc.Pairwise (fun a b => b.2 ≤ a.2) →
      (l.foldl (fun a x => insertScored x a) acc).Pairwise (fun a b => b.2 ≤ a.2) := by
  induction l with
  | nil => intro acc h; exact h
  | cons x l ih => intro acc h; exact ih (insertScored x acc) (insertScored_sorted h)

theorem sortScored_sorted (l : List (Str × Nat)) :
    (sortScored l).Pairwise (fun a b => b.2 ≤ a.2) :=
  foldl_insertScored_sorted l [] (by simp)

theorem filter_insertScored (s : Nat) (x : Str × Nat) {l : List (Str × Nat)}
    (hl : l.Pairwise (fun a b => b.2 ≤ a.2)) :
    (insertScored x l).filter (fun z => decide (z.2 = s)) =
      if x.2 = s then l.filter (fun z => decide (z.2 = s)) ++ [x]
      else l.filter (fun z => decide (z.2 = s)) := by
  induction l with
  | nil => by_cases h : x.2 = s <;> simp [insertScored, List.filter_cons, h]
  | cons y ys ih =>
    rcases List.pairwise_cons.mp hl with ⟨hy, hys⟩
    by_cases hxy : x.2 ≤ y.2
    · rw [insertScored, if_pos hxy]
      rw [List.filter_cons, List.filter_cons, ih hys]
      by_cases hx : x.2 = s <;> by_cases hyq : y.2 = s <;> simp [hx, hyq]
    · rw [insertScored, if_neg hxy]
      by_cases hxs : x.2 = s
      · have hnil : (y :: ys).filter (fun z => decide (z.2 = s)) = [] := by
          apply List.filter_eq_nil_iff.mpr
          intro z hz
          have hzle : z.2 ≤ y.2 := by
            rcases List.mem_cons.mp hz with rfl | hz
            · exact le_refl _
            · exact hy z hz
          simp only [decide_eq_true_eq]
          omega
        rw [if_pos hxs, hnil, List.filter_cons, if_pos (by simpa using hxs), hnil]
        rfl
      · rw [if_neg hxs, List.filter_cons, if_neg (by simpa using hxs)]

theorem filter_sortScored (s : Nat) (l : List (Str × Nat)) :
    (sortScored l).filter (fun z => decide (z.2 = s)) =
      l.filter (fun z => decide (z.2 = s)) := by
  induction l using List.reverseRecOn with
  | nil => rfl
  | append_singleton l x ih =>
    have hs : sortScored (l ++ [x]) = insertScored x (sortScored l) := by
      simp [sortScored, List.foldl_append]
    rw [hs, filter_insertScored s x (sortScored_sorted l), List.filter_append, ← ih]
    by_cases hx : x.2 = s <;> simp [List.filter_cons, hx]

theorem mem_relevant {corpus : List Str} {query : Str} {x : Str × Nat}
    (hx : x ∈ corpus.filterMap (fun a =>
      let s := calculate_relevance a query
      if s > 0 then some (a, s) else none)) :
    x.2 = calculate_relevance x.1 query ∧ 0 < x.2 ∧ x.1 ∈ corpus := by
  rcases List.mem_filterMap.mp hx with ⟨a, ha, hfa⟩
  simp only [] at hfa
  by_cases h : calculate_relevance a query > 0
  · rw [if_pos h] at hfa
    cases hfa
    exact ⟨rfl, h, ha⟩
  · rw [if_neg h] at hfa
    cases hfa

theorem map_fst_filter_relevant (query : Str) (s : Nat) (hs : s ≠ 0) :
    ∀ corpus : List Str,
      ((corpus.filterMap (fun a =>
        let c := calculate_relevance a query
        if c > 0 then some (a, c) else none)).filter
          (fun z => decide (z.2 = s))).map Prod.fst =
      corpus.filter (fun a => decide (calculate_relevance a query = s))
  | [] => rfl
  | a :: corpus => by
    have ih := map_fst_filter_relevant query s hs corpus
    by_cases h : calculate_relevance a query > 0
    · have hfa : (fun a => let c := calculate_relevance a query;
          if c > 0 then some (a, c) else none) a =
          some (a, calculate_relevance a query) := by
        simp [h]
      by_cases hcs : calculate_relevance a query = s
      · simp only [List.filterMap_cons, hfa]
        rw [List.filter_cons, if_pos (by simp [hcs]), List.map_cons, ih]
        conv_rhs => rw [List.filter_cons, if_pos (by simp [hcs])]
      · simp only [List.filterMap_cons, hfa]
        rw [List.filter_cons, if_neg (by simp [hcs]), ih]
        conv_rhs => rw [List.filter_cons, if_neg (by simp [hcs])]
    · have hfa : (fun a => let c := calculate_relevance a query;
          if c > 0 then some (a, c) else none) a = none := by
        simp [h]
      have hcs : ¬ (calculate_relevance a query = s) := by omega
      simp only [List.filterMap_cons, hfa]
      rw [ih]
      conv_rhs => rw [List.filter_cons, if_neg (by simp [hcs])]

/-- C5: for every corpus and query, the ranking output is sorted by
relevance score in descending order; for every non-zero score the articles
holding that score appear exactly as in the original corpus order (stable
ties); every ranked article has positive score (no zero-score article
appears); and the output is empty when no article scores above zero. -/
theorem C5_ranking (corpus : List Str) (query : Str) :
    (search_articles corpus query).Pairwise
      (fun a b => calculate_relevance b query ≤ calculate_relevance a query) ∧
    (∀ s : Nat, s ≠ 0 →
      (search_articles corpus query).filter
          (fun a => decide (calculate_relevance a query = s)) =
        corpus.filter (fun a => decide (calculate_relevance a query = s))) ∧
    (∀ a ∈ search_articles corpus query, 0 < calculate_relevance a query) ∧
    ((∀ a ∈ corpus, calculate_relevance a query = 0) →
      search_articles corpus query = []) := by
  refine ⟨?_, ?_, ?_, ?_⟩
  · have hsorted := sortScored_sorted (corpus.filterMap (fun a =>
      let s := calculate_relevance a query
      if s > 0 then some (a, s) else none))
    simp only [search_articles]
    rw [List.pairwise_map]
    refine List.Pairwise.imp_of_mem ?_ hsorted
    intro x y hx hy hle
    have hx' := mem_relevant ((sortScored_perm _).mem_iff.mp hx)
    have hy' := mem_relevant ((sortScored_perm _).mem_iff.mp hy)
    rw [← hx'.1, ← hy'.1]
    exact hle
  · intro s hs
    simp only [search_articles]
    rw [List.filter_map]
    have hcongr : (sortScored (corpus.filterMap (fun a =>
          let s := calculate_relevance a query
          if s > 0 then some (a, s) else none))).filter
            ((fun a => decide (calculate_relevance a query = s)) ∘ Prod.fst) =
        (sortScored (corpus.filterMap (fun a =>
          let s := calculate_relevance a query
          if s > 0 then some (a, s) else none))).filter
            (fun z => decide (z.2 = s)) := by
      apply List.filter_congr
      intro x hx
      have hx' := mem_relevant ((sortScored_perm _).mem_iff.mp hx)
      simp only [Function.comp]
      rw [← hx'.1]
    rw [hcongr, filter_sortScored, map_fst_filter_relevant query s hs corpus]
  · intro a ha
    simp only [search_articles] at ha
    rcases List.mem_map.mp ha with ⟨x, hx, rfl⟩
    have hx' := mem_relevant ((sortScored_perm _).mem_iff.mp hx)
    have h2 := hx'.2.1
    rw [hx'.1] at h2
    exact h2
  · intro h
    simp only [search_articles]
    have hrel : corpus.filterMap (fun a =>
        let s := calculate_relevance a query
        if s > 0 then some (a, s) else none) = [] := by
      rw [List.filterMap_eq_nil_iff]
      intro a ha
      simp [h a ha]
    rw [hrel]
    rfl

/-- Witness for C5 at a concrete corpus and query. -/
theorem C5_ranking_witness :
    (search_articles [str "оплата картой"] (str "оплата")).filter
        (fun a => decide (calculate_relevance a (str "оплата") = 106)) =
      ([str "оплата картой"]).filter
        (fun a => decide (calculate_relevance a (str "оплата") = 106)) :=
  (C5_ranking [str "оплата картой"] (str "оплата")).2.1 106 (by decide)

/-- C10: for the empty query string every article scores exactly 100 (no
scorable tokens, but the verbatim-substring bonus fires since the empty
string is a substring of every text), and searching with the empty query
returns the whole corpus in original order. -/
theorem C10_empty_query :
    (∀ article : Str, calculate_relevance article [] = 100) ∧
    (∀ corpus : List Str, search_articles corpus [] = corpus) := by
  refine ⟨calculate_relevance_empty_query, ?_⟩
  intro corpus
  have hmap : corpus.filterMap (fun a =>
      let s := calculate_relevance a []
      if s > 0 then some (a, s) else none) = corpus.map (fun a => (a, 100)) := by
    induction corpus with
    | nil => rfl
    | cons a l ih =>
      have hfa : (fun a => let s := calculate_relevance a [];
          if s > 0 then some (a, s) else none) a = some (a, 100) := by
        simp [calculate_relevance_empty_query]
      simp only [List.filterMap_cons, hfa, ih, List.map_cons]
  simp only [search_articles, hmap]
  have hall : ∀ z ∈ corpus.map (fun a => (a, (100 : Nat))), z.2 = 100 := by
    intro z hz
    rcases List.mem_map.mp hz with ⟨a, _, rfl⟩
    rfl
  have h1 : (sortScored (corpus.map fun a => (a, 100))).filter
      (fun z => decide (z.2 = 100)) = sortScored (corpus.map fun a => (a, 100)) := by
    apply List.filter_eq_self.mpr
    intro z hz
    simp [hall z ((sortScored_perm _).mem_iff.mp hz)]
  have h2 : (corpus.map fun a => (a, (100 : Nat))).filter
      (fun z => decide (z.2 = 100)) = corpus.map (fun a => (a, 100)) := by
    apply List.filter_eq_self.mpr
    intro z hz
    simp [hall z hz]
  have h3 := filter_sortScored 100 (corpus.map fun a => (a, 100))
  rw [h1, h2] at h3
  rw [h3, List.map_map]
  have hcomp : (Prod.fst ∘ fun a : Str => (a, (100 : Nat))) = id := rfl
  rw [hcomp, List.map_id]

/-- C6 (amended): a missing backing file (`FileNotFoundError`) yields an
empty article sequence without raising; a readable file parses normally;
but any other read failure (permission denied, directory, decode error) is
not caught and propagates to the caller. -/
theorem C6_missing_file :
    load_articles (ReadOutcome.exc PyExc.fileNotFoundError) = Except.ok [] ∧
    (∀ content : Str, load_articles (ReadOutcome.ok content) =
      Except.ok (parse_articles content)) ∧
    (∀ e : PyExc, e ≠ PyExc.fileNotFoundError →
      load_articles (ReadOutcome.exc e) = Except.error e) := by
  refine ⟨rfl, fun _ => rfl, fun e he => ?_⟩
  cases e with
  | fileNotFoundError => exact absurd rfl he
  | permissionError => rfl
  | isADirectoryError => rfl
  | unicodeDecodeError => rfl

/-- Witness for C6 at a concrete unreadable-file state. -/
theorem C6_witness :
    load_articles (ReadOutcome.exc PyExc.permissionError) =
      Except.error PyExc.permissionError :=
  C6_missing_file.2.2 PyExc.permissionError (by decide)

/-- Counterexample to C6 as stated: an unreadable (permission-denied)
backing file does not give an empty sequence — the exception propagates. -/
theorem C6_counterexample :
    load_articles (ReadOutcome.exc PyExc.permissionError) ≠ Except.ok [] ∧
    (∃ e : PyExc, load_articles (ReadOutcome.exc PyExc.permissionError) =
      Except.error e) := by
  exact ⟨fun h => Except.noConfusion h, PyExc.permissionError, rfl⟩

theorem get_article_title_lines_eq_find (lines : List Str) :
    get_article_title_lines lines =
      match lines.find? titleMatch with
      | some line => pyStrip (afterFirstColon line)
      | none => titleSentinel := by
  induction lines with
  | nil => rfl
  | cons line rest ih =>
    by_cases h1 : (occursIn (str "СТАТЬЯ") line && occursIn (str ":") line) = true
    · rw [get_article_title_lines, if_pos h1, List.find?]
      have : titleMatch line = true := by simp [titleMatch, h1]
      rw [this]
    · by_cases h2 : occursIn (str "Заголовок:") line = true
      · rw [get_article_title_lines, if_neg h1, if_pos h2, List.find?]
        have : titleMatch line = true := by simp [titleMatch, h2]
        rw [this]
      · rw [get_article_title_lines, if_neg h1, if_neg h2, List.find?]
        have : titleMatch line = false := by
          simp only [titleMatch, Bool.or_eq_false_iff]
          simp only [Bool.not_eq_true] at h1 h2
          exact ⟨h1, h2⟩
        rw [this, ih]

/-- C7 (amended): the title scan returns, for the first line in order that
either contains "СТАТЬЯ" together with a colon or contains "Заголовок:",
the text after that line's first colon, trimmed; both markers are checked
line by line in a single pass (the secondary marker is not a global
fallback), and the fixed sentinel is returned when no line matches. -/
theorem C7_title (article : Str) :
    get_article_title article =
      match (splitLines article).find? titleMatch with
      | some line => pyStrip (afterFirstColon line)
      | none => titleSentinel :=
  get_article_title_lines_eq_find (splitLines article)

/-- Counterexample to C7 as stated: in this article the first line with the
primary marker "СТАТЬЯ" and a colon is the second line, whose title text is
"B"; but the code returns "A" from the earlier "Заголовок:" line, so the
secondary marker is not merely a fallback for when the primary is absent. -/
theorem C7_counterexample :
    get_article_title (str "Заголовок: A\nСТАТЬЯ 1: B") = str "A" ∧
    occursIn (str "СТАТЬЯ") (str "Заголовок: A") = false ∧
    (occursIn (str "СТАТЬЯ") (str "СТАТЬЯ 1: B") &&
      occursIn (str ":") (str "СТАТЬЯ 1: B")) = true ∧
    pyStrip (afterFirstColon (str "СТАТЬЯ 1: B")) = str "B" ∧
    str "A" ≠ str "B" := by decide

/-- C3 (amended): for a query whose ranked sequence is empty, the
synthesizer invokes the external generative path exactly once with the raw
question, returns no script, labels the source with the fixed string
"Нейросеть" (not "not-found"), and its answer is whatever the absorbing
call produced — in particular `none` (not a fixed non-empty message) on any
failure; the transport failure itself is always absorbed by
`ask_huggingface`, which is total and never propagates an error. -/
theorem C3_fallback (hf : Str → HFResponse) (corpus : List Str) (question : Str)
    (h : search_articles corpus question = []) :
    (generate_response hf corpus question).prompts = [question] ∧
    (generate_response hf corpus question).script = none ∧
    (generate_response hf corpus question).source = str "Нейросеть" ∧
    (generate_response hf corpus question).answer = ask_huggingface (hf question) ∧
    (∀ resp : HFResponse, hfFailure resp = true → ask_huggingface resp = none) := by
  have hg : generate_response hf corpus question =
      ⟨ask_huggingface (hf question), none, str "Нейросеть", [question]⟩ := by
    simp only [generate_response, h]
  refine ⟨by rw [hg], by rw [hg], by rw [hg], by rw [hg], ?_⟩
  intro resp hr
  cases resp with
  | failure => rfl
  | response status body =>
    simp only [hfFailure, Bool.or_eq_true, decide_eq_true_eq] at hr
    rcases hr with h200 | hinv
    · simp [ask_huggingface, h200]
    · subst hinv
      by_cases hs : status = 200 <;> simp [ask_huggingface, hs]

/-- Witness for C3 at a concrete failing service and empty corpus. -/
theorem C3_witness :
    (generate_response (fun _ => HFResponse.failure) [] (str "вопрос")).prompts =
      [str "вопрос"] :=
  (C3_fallback (fun _ => HFResponse.failure) [] (str "вопрос") (by decide)).1

/-- Counterexample to C3 as stated: on a failing external call with an
empty corpus, the source label is "Нейросеть", not "not-found", and the
answer is `none` rather than a fixed non-empty "not found" message. -/
theorem C3_counterexample :
    hfFailure HFResponse.failure = true ∧
    (generate_response (fun _ => HFResponse.failure) [] (str "вопрос")).source ≠
      str "not-found" ∧
    (generate_response (fun _ => HFResponse.failure) [] (str "вопрос")).answer =
      none := by decide

/-- C2 (amended): when the ranked sequence is non-empty, the script and
title of the returned triple are exactly the extractor's outputs on the
top-ranked article.  If the question is detected as a direct answer, the
answer is the extracted content and no outbound call is made.  Otherwise
exactly one outbound AI-enhancement call is made, on the prompt built from
the question and the extracted content: when it returns non-empty text the
answer is that AI-enhanced text, and when it fails or returns empty text
the answer is the extracted content. -/
theorem C2_top_article (hf : Str → HFResponse) (corpus : List Str)
    (question best : Str) (rest : List Str)
    (h : search_articles corpus question = best :: rest) :
    (generate_response hf corpus question).script = extract_script best ∧
    (generate_response hf corpus question).source = get_article_title best ∧
    (is_direct_answer question (extract_main_content best) = true →
      (generate_response hf corpus question).answer =
        some (extract_main_content best) ∧
      (generate_response hf corpus question).prompts = []) ∧
    (is_direct_answer question (extract_main_content best) = false →
      (generate_response hf corpus question).prompts =
        [enhance_prompt question (extract_main_content best)] ∧
      (∀ s : Str,
        ask_huggingface (hf (enhance_prompt question (extract_main_content best))) =
          some s → s ≠ [] →
        (generate_response hf corpus question).answer = some s) ∧
      (ask_huggingface (hf (enhance_prompt question (extract_main_content best))) =
          none →
        (generate_response hf corpus question).answer =
          some (extract_main_content best)) ∧
      (ask_huggingface (hf (enhance_prompt question (extract_main_content best))) =
          some [] →
        (generate_response hf corpus question).answer =
          some (extract_main_content best))) := by
  by_cases hd : is_direct_answer question (extract_main_content best) = true
  · have hg : generate_response hf corpus question =
        ⟨some (extract_main_content best), extract_script best,
          get_article_title best, []⟩ := by
      simp only [generate_response, h, hd, if_true]
    rw [hg]
    exact ⟨rfl, rfl, fun _ => ⟨rfl, rfl⟩,
      fun hc => absurd (hd.symm.trans hc) (by simp)⟩
  · simp only [Bool.not_eq_true] at hd
    cases hask : ask_huggingface (hf (enhance_prompt question (extract_main_content best))) with
    | none =>
      have hg : generate_response hf corpus question =
          ⟨some (extract_main_content best), extract_script best,
            get_article_title best,
            [enhance_prompt question (extract_main_content best)]⟩ := by
        simp only [generate_response, h, hd, Bool.false_eq_true, if_false, hask]
      rw [hg]
      refine ⟨rfl, rfl, fun hc => absurd (hd.symm.trans hc) (by simp), fun _ => ?_⟩
      exact ⟨rfl, fun s hs _ => Option.noConfusion hs, fun _ => rfl,
        fun hc => Option.noConfusion hc⟩
    | some enhanced =>
      by_cases he : enhanced.isEmpty = true
      · have hnil : enhanced = [] := by simpa using he
        subst hnil
        have hg : generate_response hf corpus question =
            ⟨some (extract_main_content best), extract_script best,
              get_article_title best,
              [enhance_prompt question (extract_main_content best)]⟩ := by
          simp only [generate_response, h, hd, Bool.false_eq_true, if_false, hask,
            List.isEmpty_nil, Bool.not_true]
        rw [hg]
        refine ⟨rfl, rfl, fun hc => absurd (hd.symm.trans hc) (by simp), fun _ => ?_⟩
        refine ⟨rfl, ?_, fun hc => Option.noConfusion hc, fun _ => rfl⟩
        intro s hs hsne
        injection hs with hs2
        exact absurd hs2.symm hsne
      · simp only [Bool.not_eq_true] at he
        have hg : generate_response hf corpus question =
            ⟨some enhanced, extract_script best, get_article_title best,
              [enhance_prompt question (extract_main_content best)]⟩ := by
          simp only [generate_response, h, hd, Bool.false_eq_true, if_false, hask,
            he, Bool.not_false, if_true]
        rw [hg]
        refine ⟨rfl, rfl, fun hc => absurd (hd.symm.trans hc) (by simp), fun _ => ?_⟩
        refine ⟨rfl, ?_, fun hc => Option.noConfusion hc, fun hc => ?_⟩
        · intro s hs _
          injection hs with hs2
          rw [hs2]
        · injection hc with hc2
          rw [hc2] at he
          exact absurd he (by simp)

/-- Witness for C2 at a concrete corpus, query and service behaviour:
the question is not a direct answer, the service returns the non-empty
text "AI", and the returned answer is exactly that enhanced text. -/
theorem C2_witness :
    (generate_response (fun _ => HFResponse.response 200 (HFBody.list [some (str "AI")]))
        [str "payment information goes here"] (str "payment")).answer =
      some (str "AI") :=
  (((C2_top_article (fun _ => HFResponse.response 200 (HFBody.list [some (str "AI")]))
      [str "payment information goes here"] (str "payment")
      (str "payment information goes here") [] (by decide)).2.2.2
    (by decide)).2.1) (str "AI") (by decide) (by decide)

/-- Counterexample to C2 as stated: for this corpus the query ranks the
single article on top, yet with a succeeding AI enhancement the returned
answer is the enhanced text "AI", not the extracted content of the top
article — so the triple is not the Field Extractor's output. -/
theorem C2_counterexample :
    search_articles [str "payment information goes here"] (str "payment") =
      [str "payment information goes here"] ∧
    (generate_response (fun _ => HFResponse.response 200 (HFBody.list [some (str "AI")]))
        [str "payment information goes here"] (str "payment")).answer ≠
      some (extract_main_content (str "payment information goes here")) := by decide

theorem foldl_add_init_le (hay : Str) (ks : List Str) :
    ∀ n : Nat, n ≤ ks.foldl (fun m k => m + pyCount hay (pyLower k)) n := by
  induction ks with
  | nil => intro n; simp
  | cons k ks ih =>
    intro n
    rw [List.foldl_cons]
    exact le_trans (Nat.le_add_right n _) (ih _)

theorem le_foldl_add (hay : Str) (ks : List Str) (k : Str) :
    k ∈ ks → ∀ n : Nat,
      pyCount hay (pyLower k) ≤ ks.foldl (fun m x => m + pyCount hay (pyLower x)) n := by
  induction ks with
  | nil => intro hk; cases hk
  | cons x ks ih =>
    intro hk n
    rw [List.foldl_cons]
    rcases List.mem_cons.mp hk with rfl | hk
    · exact le_trans (Nat.le_add_left _ _) (foldl_add_init_le hay ks _)
    · exact ih hk _

/-- C9: every topic of the fixed table appears in the coverage analysis
with its total keyword count and its level; the level is "высокое" exactly
when the count exceeds 10, "среднее" exactly when it exceeds 3 but not 10,
and "низкое" exactly when it is at most 3; and whenever some keyword of a
topic occurs 12 times in the lowered corpus text, that topic is classified
"высокое". -/
theorem C9_coverage :
    (∀ (content : Str), ∀ tk ∈ topicsTable,
      (tk.1, topicKeywordCount (pyLower content) tk.2,
        coverageLevel (topicKeywordCount (pyLower content) tk.2)) ∈
          analyze_coverage content) ∧
    (∀ c : Nat,
      (coverageLevel c = str "высокое" ↔ 10 < c) ∧
      (coverageLevel c = str "среднее" ↔ (3 < c ∧ c ≤ 10)) ∧
      (coverageLevel c = str "низкое" ↔ c ≤ 3)) ∧
    (∀ (content topic : Str) (keywords : List Str) (kw : Str),
      (topic, keywords) ∈ topicsTable → kw ∈ keywords →
      pyCount (pyLower content) (pyLower kw) = 12 →
      coverageLevel (topicKeywordCount (pyLower content) keywords) =
        str "высокое") := by
  refine ⟨?_, ?_, ?_⟩
  · intro content tk htk
    simp only [analyze_coverage]
    exact List.mem_map.mpr ⟨tk, htk, rfl⟩
  · intro c
    by_cases h10 : 10 < c
    · have hv : coverageLevel c = str "высокое" := by simp [coverageLevel, h10]
      refine ⟨iff_of_true hv h10, ?_, ?_⟩
      · rw [hv]
        exact iff_of_false (by decide) (by omega)
      · rw [hv]
        exact iff_of_false (by decide) (by omega)
    · by_cases h3 : 3 < c
      · have hv : coverageLevel c = str "среднее" := by simp [coverageLevel, h10, h3]
        refine ⟨?_, iff_of_true hv ⟨h3, by omega⟩, ?_⟩
        · rw [hv]
          exact iff_of_false (by decide) h10
        · rw [hv]
          exact iff_of_false (by decide) (by omega)
      · have hv : coverageLevel c = str "низкое" := by simp [coverageLevel, h10, h3]
        refine ⟨?_, ?_, iff_of_true hv (by omega)⟩
        · rw [hv]
          exact iff_of_false (by decide) h10
        · rw [hv]
          exact iff_of_false (by decide) (by omega)
  · intro content topic keywords kw htk hkw h12
    have hle := le_foldl_add (pyLower content) keywords kw hkw 0
    rw [h12] at hle
    have h10 : 10 < topicKeywordCount (pyLower content) keywords := by
      unfold topicKeywordCount
      omega
    simp [coverageLevel, h10]

/-- Witness for C9: a corpus containing the keyword "ЕПД" (of topic
"Оплата") exactly 12 times is classified "высокое" for that topic. -/
theorem C9_witness :
    coverageLevel (topicKeywordCount
      (pyLower (str "епд епд епд епд епд епд епд епд епд епд епд епд"))
      [str "оплата", str "платеж", str "квитанция", str "ЕПД"]) = str "высокое" :=
  C9_coverage.2.2 (str "епд епд епд епд епд епд епд епд епд епд епд епд")
    (str "Оплата") [str "оплата", str "платеж", str "квитанция", str "ЕПД"]
    (str "ЕПД") (by decide) (by decide) (by decide)

theorem isPrefixOf_cons_ne {a b : Char} (l₁ l₂ : List Char) (h : ¬ a = b) :
    ((a :: l₁).isPrefixOf (b :: l₂)) = false := by
  simp [List.isPrefixOf, h]

theorem export_filename_not_json (timestamp : Str) :
    pyEndsWith (export_filename_txt timestamp) (str ".json") = false := by
  unfold pyEndsWith export_filename_txt
  have h1 : (str "knowledge_export_" ++ timestamp ++ str ".txt").reverse =
      't' :: 'x' :: 't' :: '.' ::
        (timestamp.reverse ++ (str "knowledge_export_").reverse) := by
    rw [List.reverse_append, List.reverse_append]
    rfl
  have h2 : (str ".json").reverse = 'n' :: 'o' :: 's' :: 'j' :: '.' :: [] := rfl
  rw [h1, h2]
  exact isPrefixOf_cons_ne _ _ (by decide)

/-- C8: exporting the knowledge base in txt format and re-importing the
exported file unmodified leaves the backing corpus content byte-identical
(the export filename never ends in ".json", so the import takes the
verbatim branch), hence the delimiter segmentation and the parsed article
sequence are unchanged by the round trip. -/
theorem C8_roundtrip (knowledge timestamp now : Str) (jsonData : List JsonArticle) :
    FileManager.import_knowledge (FileManager.export_knowledge_txt knowledge timestamp).1
        now jsonData (FileManager.export_knowledge_txt knowledge timestamp).2 =
      knowledge ∧
    pySplitOn delim (FileManager.import_knowledge
        (FileManager.export_knowledge_txt knowledge timestamp).1 now jsonData
        (FileManager.export_knowledge_txt knowledge timestamp).2) =
      pySplitOn delim knowledge ∧
    parse_articles (FileManager.import_knowledge
        (FileManager.export_knowledge_txt knowledge timestamp).1 now jsonData
        (FileManager.export_knowledge_txt knowledge timestamp).2) =
      parse_articles knowledge := by
  have him : FileManager.import_knowledge (export_filename_txt timestamp) now jsonData
      knowledge = knowledge := by
    simp [FileManager.import_knowledge, export_filename_not_json]
  simp only [FileManager.export_knowledge_txt]
  exact ⟨him, by rw [him], by rw [him]⟩

/-! ### Parsing a delimiter-joined corpus (C4) -/

theorem splitOnGo_skip (sep : Str) :
    ∀ (u t acc : Str), splitOnGo sep (u ++ t) acc u.length = splitOnGo sep t acc 0
  | [], _, _ => rfl
  | d :: u, t, acc => by
    have he : splitOnGo sep ((d :: u) ++ t) acc (d :: u).length =
        splitOnGo sep (u ++ t) acc u.length := rfl
    rw [he]
    exact splitOnGo_skip sep u t acc

theorem splitOnGo_no_occur (sep : Str) :
    ∀ (s acc : Str), occursIn sep s = false →
      splitOnGo sep s acc 0 = [acc.reverse ++ s]
  | [], acc, _ => by simp [splitOnGo]
  | c :: s, acc, h => by
    have hocc : (sep.isPrefixOf (c :: s) || occursIn sep s) = false := h
    rcases Bool.or_eq_false_iff.mp hocc with ⟨h1, h2⟩
    have he : splitOnGo sep (c :: s) acc 0 =
        if sep.isPrefixOf (c :: s) then
          acc.reverse :: splitOnGo sep s [] (sep.length - 1)
        else splitOnGo sep s (c :: acc) 0 := rfl
    rw [he, if_neg (by simp [h1]), splitOnGo_no_occur sep s (c :: acc) h2]
    simp

theorem not_prefix_of_append (n : Nat) (ch : Char) (s u : Str)
    (hs : s ≠ []) (hocc : occursIn (List.replicate (n + 1) ch) s = false)
    (hlast : s.getLast? ≠ some ch) :
    (List.replicate (n + 1) ch).isPrefixOf (s ++ u) = false := by
  by_contra hcon
  rw [Bool.not_eq_false] at hcon
  have hpre : List.replicate (n + 1) ch <+: s ++ u :=
    List.isPrefixOf_iff_prefix.mp hcon
  have hsu : s <+: s ++ u := List.prefix_append s u
  by_cases hlen : n + 1 ≤ s.length
  · have h1 : List.replicate (n + 1) ch <+: s :=
      List.prefix_of_prefix_length_le hpre hsu (by simpa using hlen)
    have h2 := occursIn_of_isPrefixOf (List.isPrefixOf_iff_prefix.mpr h1)
    rw [hocc] at h2
    cases h2
  · have h1 : s <+: List.replicate (n + 1) ch :=
      List.prefix_of_prefix_length_le hsu hpre (by simp; omega)
    have h2 : s = List.replicate s.length ch :=
      List.eq_replicate_of_mem (fun b hb =>
        List.eq_of_mem_replicate (h1.sublist.subset hb))
    have h3 : s.getLast? = some ch := by
      rw [h2, List.getLast?_replicate]
      rw [if_neg (by simpa using hs)]
    exact hlast h3

theorem splitOnGo_cut (n : Nat) (ch : Char) :
    ∀ (s t acc : Str),
      occursIn (List.replicate (n + 1) ch) s = false →
      s.getLast? ≠ some ch →
      splitOnGo (List.replicate (n + 1) ch)
          (s ++ (List.replicate (n + 1) ch ++ t)) acc 0 =
        (acc.reverse ++ s) :: splitOnGo (List.replicate (n + 1) ch) t [] 0
  | [], t, acc, _, _ => by
    have hcond : (List.replicate (n + 1) ch).isPrefixOf
        (List.replicate (n + 1) ch ++ t) = true :=
      List.isPrefixOf_iff_prefix.mpr (List.prefix_append _ _)
    have he : splitOnGo (List.replicate (n + 1) ch)
        (List.replicate (n + 1) ch ++ t) acc 0 =
        if (List.replicate (n + 1) ch).isPrefixOf (List.replicate (n + 1) ch ++ t) then
          acc.reverse :: splitOnGo (List.replicate (n + 1) ch)
            (List.replicate n ch ++ t) [] ((List.replicate (n + 1) ch).length - 1)
        else splitOnGo (List.replicate (n + 1) ch)
          (List.replicate n ch ++ t) (ch :: acc) 0 := rfl
    rw [List.nil_append, he, if_pos hcond]
    have hlen : (List.replicate (n + 1) ch).length - 1 = (List.replicate n ch).length := by
      simp
    rw [hlen, splitOnGo_skip]
    simp
  | c :: s, t, acc, hocc, hlast => by
    have hocc' : occursIn (List.replicate (n + 1) ch) s = false :=
      occursIn_cons_false hocc
    have hlast' : s.getLast? ≠ some ch := by
      cases s with
      | nil => simp
      | cons d s' =>
        rw [List.getLast?_cons_cons] at hlast
        exact hlast
    have hp : (List.replicate (n + 1) ch).isPrefixOf
        ((c :: s) ++ (List.replicate (n + 1) ch ++ t)) = false :=
      not_prefix_of_append n ch (c :: s) _ (by simp) hocc hlast
    have he : splitOnGo (List.replicate (n + 1) ch)
        ((c :: s) ++ (List.replicate (n + 1) ch ++ t)) acc 0 =
        if (List.replicate (n + 1) ch).isPrefixOf
            ((c :: s) ++ (List.replicate (n + 1) ch ++ t)) then
          acc.reverse :: splitOnGo (List.replicate (n + 1) ch)
            (s ++ (List.replicate (n + 1) ch ++ t)) []
            ((List.replicate (n + 1) ch).length - 1)
        else splitOnGo (List.replicate (n + 1) ch)
          (s ++ (List.replicate (n + 1) ch ++ t)) (c :: acc) 0 := rfl
    rw [he, if_neg (by rw [hp]; simp),
      splitOnGo_cut n ch s t (c :: acc) hocc' hlast']
    simp

theorem intercalate_cons_cons (sep a b : Str) (l : List Str) :
    List.intercalate sep (a :: b :: l) = a ++ sep ++ List.intercalate sep (b :: l) := by
  simp [List.intercalate, List.flatten, List.append_assoc]

theorem splitOnGo_intercalate (n : Nat) (ch : Char) :
    ∀ segs : List Str, segs ≠ [] →
      (∀ s ∈ segs, occursIn (List.replicate (n + 1) ch) s = false ∧
        s.getLast? ≠ some ch) →
      splitOnGo (List.replicate (n + 1) ch)
          (List.intercalate (List.replicate (n + 1) ch) segs) [] 0 = segs
  | [], h, _ => absurd rfl h
  | [s], _, hseg => by
    have hone : List.intercalate (List.replicate (n + 1) ch) [s] = s := by
      simp [List.intercalate]
    rw [hone, splitOnGo_no_occur _ s [] (hseg s (by simp)).1]
    simp
  | s :: s2 :: segs, _, hseg => by
    rw [intercalate_cons_cons, List.append_assoc,
      splitOnGo_cut n ch s _ [] (hseg s (by simp)).1 (hseg s (by simp)).2,
      splitOnGo_intercalate n ch (s2 :: segs) (by simp)
        (fun x hx => hseg x (List.mem_cons_of_mem s hx))]
    simp

/-- C4 (amended): for any corpus text built by joining K segments with the
50-character `=` delimiter, where every segment is non-empty after
trimming, contains no occurrence of the delimiter, and does not end in `=`
(so that joining cannot create a new delimiter occurrence), parsing returns
exactly the K trimmed segments in original order; moreover no parsed
article is ever empty (empty and whitespace-only segments, leading or
trailing included, are dropped). -/
theorem C4_parse_intercalate :
    (∀ segs : List Str,
      (∀ s ∈ segs, pyStrip s ≠ [] ∧ occursIn delim s = false ∧
        s.getLast? ≠ some '=') →
      parse_articles (List.intercalate delim segs) = segs.map pyStrip) ∧
    (∀ content : Str, ∀ a ∈ parse_articles content, a ≠ []) := by
  constructor
  · intro segs hsegs
    cases segs with
    | nil => rfl
    | cons s segs' =>
      have hrepl : delim = List.replicate (49 + 1) '=' := rfl
      have hsplit := splitOnGo_intercalate 49 '=' (s :: segs') (by simp)
        (fun x hx => ⟨by rw [← hrepl]; exact (hsegs x hx).2.1, (hsegs x hx).2.2⟩)
      rw [← hrepl] at hsplit
      simp only [parse_articles, pySplitOn]
      rw [hsplit]
      apply List.filter_eq_self.mpr
      intro a ha
      rcases List.mem_map.mp ha with ⟨x, hx, rfl⟩
      simpa using (hsegs x hx).1
  · intro content a ha
    simp only [parse_articles] at ha
    have h := List.of_mem_filter ha
    simpa using h

/-- Witness for C4 at two concrete well-formed segments. -/
theorem C4_witness :
    parse_articles (List.intercalate delim [str "abc", str "def"]) =
      ([str "abc", str "def"]).map pyStrip :=
  C4_parse_intercalate.1 [str "abc", str "def"] (by decide)

/-- Counterexample to C4 as stated: one segment that is non-empty after
trimming but contains the delimiter; joining this single segment and
parsing does not return the trimmed segment itself. -/
theorem C4_counterexample :
    pyStrip (delim ++ str "a") ≠ [] ∧
    parse_articles (List.intercalate delim [delim ++ str "a"]) ≠
      [pyStrip (delim ++ str "a")] := by decide
